import Mathlib

/-!
Verification of the goose SQL-migration executor (`migration_sql.go`).

The development shallowly embeds the three functions of the file:

* `clearStatement`, built from the two Go regular expressions
  `matchSQLComments = (?m)^--.*$[\r\n]*` and `matchEmptyEOL = (?m)^$[\r\n]*`,
  each applied with `ReplaceAllString(s, "")`.  RE2 semantics: in `(?m)` mode
  `^` matches at the start of the text or right after a newline character,
  `$` matches at the end of the text or right before a newline character,
  `.` matches any character except newline, and replacement scans the input
  left to right taking non-overlapping leftmost matches with greedy `.*` and
  greedy character-class stars.  Both patterns are modelled as deterministic
  character scanners (`scRun`, `esRun`) that delete exactly the matched spans.
* `execQuery`, the instrumented statement runner: a fast synchronous path and
  a verbose path that runs the executor on a separate task while a select
  loop waits, logging a progress notification on every timer tick that fires
  before the executor's message arrives.  The external tick schedule is the
  number of timer firings observed before completion.
* `runSQLMigration`, the execution coordinator, parameterised by an
  environment that decides the outcome of every database primitive (begin,
  per-call execution, commit, rollback).  The model records the result, the
  ordered trace of attempted operations, the set of calls that ended up
  committed in the database, and the diagnostic log lines (ANSI colour
  codes around every log line are presentation only and are elided).
-/

set_option autoImplicit false

namespace Goose

/-! ### Statement sanitisation: `clearStatement` -/

/-- Scanner state for `matchSQLComments.ReplaceAllString(s, "")`, the pattern
`(?m)^--.*$[\r\n]*`.
`st0`: at a line start (start of text or right after a newline).
`dash`: at a line start we have consumed a single `-` that may open `--`.
`mid`: inside a line that is not being deleted.
`skipLine`: inside a matched comment line, deleting up to the newline.
`skipEols`: deleting the greedy `[\r\n]*` tail of a match; the flag records
whether the last deleted character was a newline, which decides whether the
position where the match ends is a line start for `^`. -/
inductive SCState where
  | st0
  | dash
  | mid
  | skipLine
  | skipEols (lastNL : Bool)
deriving DecidableEq, Repr

/-- One transition of the comment scanner: next state and emitted characters. -/
def scStep : SCState → Char → SCState × List Char
  | .st0, c =>
    if c = '-' then (.dash, [])
    else if c = '\n' then (.st0, ['\n'])
    else (.mid, [c])
  | .dash, c =>
    if c = '-' then (.skipLine, [])
    else if c = '\n' then (.st0, ['-', '\n'])
    else (.mid, ['-', c])
  | .mid, c =>
    if c = '\n' then (.st0, ['\n']) else (.mid, [c])
  | .skipLine, c =>
    if c = '\n' then (.skipEols true, []) else (.skipLine, [])
  | .skipEols b, c =>
    if c = '\n' then (.skipEols true, [])
    else if c = '\r' then (.skipEols false, [])
    else if b ∧ c = '-' then (.dash, [])
    else (.mid, [c])

/-- Characters emitted at the end of the input (a pending lone `-`). -/
def scFinish : SCState → List Char
  | .dash => ['-']
  | _ => []

/-- Run the comment scanner over the input. -/
def scRun (st : SCState) : List Char → List Char
  | [] => scFinish st
  | c :: cs => (scStep st c).2 ++ scRun (scStep st c).1 cs

/-- Scanner state for `matchEmptyEOL.ReplaceAllString(s, "")`, the pattern
`(?m)^$[\r\n]*`.  `e0`: at a line start.  `eMid`: inside a kept line.
`eSkip`: deleting the greedy `[\r\n]*` tail of a match (a following run of
carriage returns and newlines is consumed no matter how it interleaves). -/
inductive ESState where
  | e0
  | eMid
  | eSkip
deriving DecidableEq, Repr

/-- One transition of the empty-line scanner. -/
def esStep : ESState → Char → ESState × List Char
  | .e0, c =>
    if c = '\n' then (.eSkip, []) else (.eMid, [c])
  | .eMid, c =>
    if c = '\n' then (.e0, ['\n']) else (.eMid, [c])
  | .eSkip, c =>
    if c = '\n' then (.eSkip, [])
    else if c = '\r' then (.eSkip, [])
    else (.eMid, [c])

/-- Run the empty-line scanner over the input. -/
def esRun (st : ESState) : List Char → List Char
  | [] => []
  | c :: cs => (esStep st c).2 ++ esRun (esStep st c).1 cs

/-- Model of `matchSQLComments.ReplaceAllString(s, "")`. -/
def matchSQLCommentsReplace (cs : List Char) : List Char :=
  scRun .st0 cs

/-- Model of `matchEmptyEOL.ReplaceAllString(s, "")`. -/
def matchEmptyEOLReplace (cs : List Char) : List Char :=
  esRun .e0 cs

/-- Model of `clearStatement`: strip comment lines, then strip empty lines. -/
def clearStatement (s : String) : String :=
  ⟨matchEmptyEOLReplace (matchSQLCommentsReplace s.data)⟩

/-! Line decomposition used to state what `clearStatement` does.  A string is
split at newline characters into lines, each carrying a flag telling whether
it was terminated by a newline. -/

/-- Split a character list into lines, each paired with a flag recording
whether it is followed by a newline terminator. -/
def splitLines : List Char → List (List Char × Bool)
  | [] => []
  | c :: cs =>
    if c = '\n' then ([], true) :: splitLines cs
    else
      match splitLines cs with
      | [] => [([c], false)]
      | (l, t) :: rest => (c :: l, t) :: rest

/-- Reassemble lines, restoring each line's newline terminator. -/
def joinLines (ls : List (List Char × Bool)) : List Char :=
  ls.flatMap fun p => p.1 ++ if p.2 then ['\n'] else []

/-- A line survives sanitisation when it is neither empty nor opens with the
line-comment marker `--` in column 0. -/
def keepLine (l : List Char) : Bool :=
  if l = [] ∨ l.take 2 = ['-', '-'] then false else true

/-! ### The database environment -/

/-- Opaque underlying database error text. -/
abbrev BaseErr := String

/-- A bind parameter passed to the executor (`v int64` and `direction bool`
are the only parameters the coordinator ever passes). -/
inductive Arg where
  | int (v : Int)
  | bool (b : Bool)
deriving DecidableEq, Repr

/-- The dialect collaborator: two opaque parameterised statement templates. -/
structure Dialect where
  insertVersionSQL : String
  deleteVersionSQL : String
deriving DecidableEq, Repr

/-- Outcome decided by the external database for each primitive the
coordinator can attempt.  `execErr q args` is the error (if any) produced by
executing statement `q` with parameters `args`, on either a transaction or a
direct connection. -/
structure Env where
  beginErr : Option BaseErr
  execErr : String → List Arg → Option BaseErr
  commitErr : Option BaseErr
  rollbackErr : Option BaseErr
  verbose : Bool

/-- Errors returned by `runSQLMigration`, mirroring the `fmt.Errorf` wrappers
of the source: each wraps the underlying database error, and a statement
failure additionally carries the sanitised statement text used in the
`%q` verb of `failed to execute SQL query %q: %w`. -/
inductive Err where
  | beginFailed (e : BaseErr)
  | execFailed (stmt : String) (e : BaseErr)
  | insertVersionFailed (e : BaseErr)
  | deleteVersionFailed (e : BaseErr)
  | commitFailed (e : BaseErr)
deriving DecidableEq, Repr

/-- One attempted database operation, in attempt order.  The rollback event
records the error the discarded `tx.Rollback()` call would have returned. -/
inductive Ev where
  | beginTx
  | exec (q : String) (args : List Arg)
  | rollback (res : Option BaseErr)
  | commit
deriving DecidableEq, Repr

/-- Result of one `runSQLMigration` call: the returned error (`none` means
success), the ordered trace of attempted operations, the calls that are
durably committed in the database afterwards (in commit order), and the
diagnostic log lines. -/
structure Outcome where
  result : Option Err
  trace : List Ev
  db : List (String × List Arg)
  log : List String
deriving DecidableEq, Repr

/-- Model of `verboseInfo`: the message is logged only in verbose mode. -/
def verboseInfo (env : Env) (msg : String) : List String :=
  if env.verbose then [msg] else []

/-- The exec events for a list of statements run without bind parameters. -/
def stmtExecs (stmts : List String) : List Ev :=
  stmts.map fun q => .exec q []

/-- The single bookkeeping call: insert-version with `(v, direction)` going
forward, delete-version with `(v)` going backward. -/
def bookCall (d : Dialect) (v : Int) (direction : Bool) : String × List Arg :=
  if direction then (d.insertVersionSQL, [.int v, .bool direction])
  else (d.deleteVersionSQL, [.int v])

/-! ### The instrumented statement runner: `execQuery` -/

/-- Result of one `execQuery` call: the propagated error, progress log lines,
and the executor invocations that were made. -/
structure ExecResult where
  err : Option BaseErr
  log : List String
  calls : List (String × List Arg)
deriving DecidableEq, Repr

/-- The verbose select loop: the goroutine's message `chResult` eventually
arrives on the channel; before it does, `ticks` timer firings are observed,
each logging a progress notification (the human-readable elapsed wall-clock
time in the Go message is abstracted away). -/
def selectLoop (chResult : Option BaseErr) : Nat → Option BaseErr × List String
  | 0 => (chResult, [])
  | n + 1 =>
    ((selectLoop chResult n).1,
      "Executing statement still in progress" :: (selectLoop chResult n).2)

/-- Model of `execQuery`: the fast path calls the executor synchronously and
propagates its error; the verbose path runs the executor on a separate task
(one invocation) and waits in the select loop under the tick schedule
`ticks`. -/
def execQuery (verbose : Bool) (ticks : Nat)
    (fn : String → List Arg → Nat × Option BaseErr)
    (q : String) (args : List Arg) : ExecResult :=
  if verbose = false then
    { err := (fn q args).2, log := [], calls := [(q, args)] }
  else
    { err := (selectLoop (fn q args).2 ticks).1
      log := (selectLoop (fn q args).2 ticks).2
      calls := [(q, args)] }

/-! ### The execution coordinator: `runSQLMigration`

The statement loops mirror the two `for _, query := range statements` loops
of the source; by the `execQuery` theorems below, the runner propagates the
executor's error unchanged in both modes, so the coordinator steps directly
on `env.execErr` (per-statement progress ticks are elided from its log). -/

/-- The transactional statement loop.  On failure it returns the wrapped
error together with the trace of attempted executions (ending with the
rollback issued at the failure site) and the log lines; on success it
returns the trace, the log, and the calls pending in the transaction. -/
def txLoop (env : Env) :
    List String →
      Except (Err × List Ev × List String)
        (List Ev × List String × List (String × List Arg))
  | [] => .ok ([], [], [])
  | q :: rest =>
    let lg := verboseInfo env ("Executing statement: " ++ (clearStatement q) ++ "\n")
    match env.execErr q [] with
    | some e =>
      .error (.execFailed (clearStatement q) e,
        [.exec q [], .rollback env.rollbackErr],
        lg ++ verboseInfo env "Rollback transaction")
    | none =>
      match txLoop env rest with
      | .error (er, tr, lgr) => .error (er, .exec q [] :: tr, lg ++ lgr)
      | .ok (tr, lgr, pend) => .ok (.exec q [] :: tr, lg ++ lgr, (q, []) :: pend)

/-- The transactional bookkeeping step (skipped entirely when versioning is
disabled); a failure rolls the transaction back at the failure site. -/
def txVersioning (env : Env) (d : Dialect) (v : Int) (direction : Bool)
    (noVersioning : Bool) :
    Except (Err × List Ev × List String) (List Ev × List (String × List Arg)) :=
  if noVersioning then .ok ([], [])
  else if direction then
    let args : List Arg := [.int v, .bool direction]
    match env.execErr d.insertVersionSQL args with
    | some e =>
      .error (.insertVersionFailed e,
        [.exec d.insertVersionSQL args, .rollback env.rollbackErr],
        verboseInfo env "Rollback transaction")
    | none => .ok ([.exec d.insertVersionSQL args], [(d.insertVersionSQL, args)])
  else
    let args : List Arg := [.int v]
    match env.execErr d.deleteVersionSQL args with
    | some e =>
      .error (.deleteVersionFailed e,
        [.exec d.deleteVersionSQL args, .rollback env.rollbackErr],
        verboseInfo env "Rollback transaction")
    | none => .ok ([.exec d.deleteVersionSQL args], [(d.deleteVersionSQL, args)])

/-- The autocommit statement loop: every successful statement is committed
immediately; a failure stops the loop, leaving prior statements committed. -/
def autoLoop (env : Env) :
    List String →
      Except (Err × List Ev × List String × List (String × List Arg))
        (List Ev × List String × List (String × List Arg))
  | [] => .ok ([], [], [])
  | q :: rest =>
    let lg := verboseInfo env ("Executing statement: " ++ (clearStatement q))
    match env.execErr q [] with
    | some e =>
      .error (.execFailed (clearStatement q) e, [.exec q []], lg, [])
    | none =>
      match autoLoop env rest with
      | .error (er, tr, lgr, dbr) => .error (er, .exec q [] :: tr, lg ++ lgr, (q, []) :: dbr)
      | .ok (tr, lgr, dbr) => .ok (.exec q [] :: tr, lg ++ lgr, (q, []) :: dbr)

/-- The autocommit bookkeeping step: the call commits on its own when it
succeeds and commits nothing when it fails. -/
def autoVersioning (env : Env) (d : Dialect) (v : Int) (direction : Bool)
    (noVersioning : Bool) :
    Except (Err × List Ev) (List Ev × List (String × List Arg)) :=
  if noVersioning then .ok ([], [])
  else if direction then
    let args : List Arg := [.int v, .bool direction]
    match env.execErr d.insertVersionSQL args with
    | some e => .error (.insertVersionFailed e, [.exec d.insertVersionSQL args])
    | none => .ok ([.exec d.insertVersionSQL args], [(d.insertVersionSQL, args)])
  else
    let args : List Arg := [.int v]
    match env.execErr d.deleteVersionSQL args with
    | some e => .error (.deleteVersionFailed e, [.exec d.deleteVersionSQL args])
    | none => .ok ([.exec d.deleteVersionSQL args], [(d.deleteVersionSQL, args)])

/-- Model of `runSQLMigration`.  In transactional mode the calls executed on
the transaction become visible only if the final commit succeeds; any
failure before commit rolls back, leaving the database untouched.  In
autocommit mode every successful call is immediately durable. -/
def runSQLMigration (env : Env) (d : Dialect) (statements : List String)
    (useTx : Bool) (v : Int) (direction : Bool) (noVersioning : Bool) : Outcome :=
  if useTx then
    let lg0 := verboseInfo env "Begin transaction"
    match env.beginErr with
    | some e => { result := some (.beginFailed e), trace := [.beginTx], db := [], log := lg0 }
    | none =>
      match txLoop env statements with
      | .error (er, tr, lgr) =>
        { result := some er, trace := .beginTx :: tr, db := [], log := lg0 ++ lgr }
      | .ok (tr, lgr, pend) =>
        match txVersioning env d v direction noVersioning with
        | .error (er, vtr, vlg) =>
          { result := some er, trace := .beginTx :: (tr ++ vtr), db := [],
            log := lg0 ++ lgr ++ vlg }
        | .ok (vtr, vpend) =>
          let lgc := verboseInfo env "Commit transaction"
          match env.commitErr with
          | some e =>
            { result := some (.commitFailed e),
              trace := .beginTx :: (tr ++ vtr ++ [.commit]), db := [],
              log := lg0 ++ lgr ++ lgc }
          | none =>
            { result := none, trace := .beginTx :: (tr ++ vtr ++ [.commit]),
              db := pend ++ vpend, log := lg0 ++ lgr ++ lgc }
  else
    match autoLoop env statements with
    | .error (er, tr, lgr, dbp) =>
      { result := some er, trace := tr, db := dbp, log := lgr }
    | .ok (tr, lgr, dbp) =>
      match autoVersioning env d v direction noVersioning with
      | .error (er, vtr) =>
        { result := some er, trace := tr ++ vtr, db := dbp, log := lgr }
      | .ok (vtr, vdb) =>
        { result := none, trace := tr ++ vtr, db := dbp ++ vdb, log := lgr }

/-! ### Reference outcome, written from the specification's description -/

/-- Split a statement list at its first failing statement: the successful
prefix, and the failing statement with its database error when one exists. -/
def failSplit (env : Env) : List String → List String × Option (String × BaseErr)
  | [] => ([], none)
  | q :: rest =>
    match env.execErr q [] with
    | some e => ([], some (q, e))
    | none =>
      let (p, f) := failSplit env rest
      (q :: p, f)

/-- Log lines announcing the attempted statements (transactional format). -/
def txStmtLog (env : Env) (qs : List String) : List String :=
  qs.flatMap fun q =>
    verboseInfo env ("Executing statement: " ++ (clearStatement q) ++ "\n")

/-- Log lines announcing the attempted statements (autocommit format). -/
def autoStmtLog (env : Env) (qs : List String) : List String :=
  qs.flatMap fun q =>
    verboseInfo env ("Executing statement: " ++ (clearStatement q))

/-- The bookkeeping error constructor for the given direction. -/
def bookErr (direction : Bool) (e : BaseErr) : Err :=
  if direction then .insertVersionFailed e else .deleteVersionFailed e

/-- The outcome the specification prescribes, computed directly: execute the
statements in strict list order up to the first failure; abort on failure
(with a rollback in transactional mode); after all statements succeed issue
the single bookkeeping call unless versioning is disabled; commit last in
transactional mode; durable calls are the committed prefix (autocommit) or
everything-or-nothing (transactional). -/
def expectedOutcome (env : Env) (d : Dialect) (stmts : List String)
    (useTx : Bool) (v : Int) (direction : Bool) (noVersioning : Bool) : Outcome :=
  let pre := (failSplit env stmts).1
  let f := (failSplit env stmts).2
  let book := bookCall d v direction
  let bErr := env.execErr book.1 book.2
  if useTx then
    let lg0 := verboseInfo env "Begin transaction"
    match env.beginErr with
    | some e => ⟨some (.beginFailed e), [.beginTx], [], lg0⟩
    | none =>
      match f with
      | some (q, e) =>
        ⟨some (.execFailed (clearStatement q) e),
          .beginTx :: (stmtExecs pre ++ [.exec q [], .rollback env.rollbackErr]),
          [],
          lg0 ++ txStmtLog env (pre ++ [q]) ++ verboseInfo env "Rollback transaction"⟩
      | none =>
        if noVersioning then
          match env.commitErr with
          | some e =>
            ⟨some (.commitFailed e), .beginTx :: (stmtExecs pre ++ [.commit]), [],
              lg0 ++ txStmtLog env pre ++ verboseInfo env "Commit transaction"⟩
          | none =>
            ⟨none, .beginTx :: (stmtExecs pre ++ [.commit]),
              pre.map (fun q => (q, [])),
              lg0 ++ txStmtLog env pre ++ verboseInfo env "Commit transaction"⟩
        else
          match bErr with
          | some e =>
            ⟨some (bookErr direction e),
              .beginTx :: (stmtExecs pre ++ [.exec book.1 book.2, .rollback env.rollbackErr]),
              [],
              lg0 ++ txStmtLog env pre ++ verboseInfo env "Rollback transaction"⟩
          | none =>
            match env.commitErr with
            | some e =>
              ⟨some (.commitFailed e),
                .beginTx :: (stmtExecs pre ++ [.exec book.1 book.2, .commit]), [],
                lg0 ++ txStmtLog env pre ++ verboseInfo env "Commit transaction"⟩
            | none =>
              ⟨none, .beginTx :: (stmtExecs pre ++ [.exec book.1 book.2, .commit]),
                pre.map (fun q => (q, [])) ++ [book],
                lg0 ++ txStmtLog env pre ++ verboseInfo env "Commit transaction"⟩
  else
    match f with
    | some (q, e) =>
      ⟨some (.execFailed (clearStatement q) e),
        stmtExecs pre ++ [.exec q []],
        pre.map (fun q => (q, [])),
        autoStmtLog env (pre ++ [q])⟩
    | none =>
      if noVersioning then
        ⟨none, stmtExecs pre, pre.map (fun q => (q, [])), autoStmtLog env pre⟩
      else
        match bErr with
        | some e =>
          ⟨some (bookErr direction e), stmtExecs pre ++ [.exec book.1 book.2],
            pre.map (fun q => (q, [])), autoStmtLog env pre⟩
        | none =>
          ⟨none, stmtExecs pre ++ [.exec book.1 book.2],
            pre.map (fun q => (q, [])) ++ [book], autoStmtLog env pre⟩

/-- The executor calls appearing in a trace, in order. -/
def execCalls (t : List Ev) : List (String × List Arg) :=
  t.filterMap fun ev =>
    match ev with
    | .exec q a => some (q, a)
    | _ => none

/-- The trace the specification prescribes: begin first in transactional
mode, then the statements in strict list order up to and including the first
failing one, nothing after a failure except the transactional rollback; when
every statement succeeds, the single bookkeeping call (unless versioning is
disabled) strictly after the last statement, then commit (transactional,
reached only when bookkeeping succeeded) or rollback (transactional,
bookkeeping failed). -/
def expectedTrace (env : Env) (d : Dialect) (stmts : List String) (useTx : Bool)
    (v : Int) (direction : Bool) (noVersioning : Bool) : List Ev :=
  match failSplit env stmts with
  | (pre, some (q, _)) =>
    (if useTx then [Ev.beginTx] else []) ++ stmtExecs pre ++ [.exec q []] ++
      (if useTx then [Ev.rollback env.rollbackErr] else [])
  | (pre, none) =>
    (if useTx then [Ev.beginTx] else []) ++ stmtExecs pre ++
      (if noVersioning then
        (if useTx then [Ev.commit] else [])
      else
        [Ev.exec (bookCall d v direction).1 (bookCall d v direction).2] ++
          (match env.execErr (bookCall d v direction).1 (bookCall d v direction).2 with
          | some _ => if useTx then [Ev.rollback env.rollbackErr] else []
          | none => if useTx then [Ev.commit] else []))

/-- Claim C1 witness environment: `bad` is the only failing statement. -/
def envW : Env :=
  { beginErr := none
    execErr := fun q _ => if q = "bad" then some "boom" else none
    commitErr := none
    rollbackErr := some "rollback lost"
    verbose := true }

/-- Dialect used by the concrete witnesses. -/
def dW : Dialect := ⟨"INSERT VERSION", "DELETE VERSION"⟩

/-- Witness environment where every statement succeeds but the insert-version
bookkeeping call fails. -/
def envB : Env :=
  { beginErr := none
    execErr := fun q _ => if q = "INSERT VERSION" then some "insboom" else none
    commitErr := none
    rollbackErr := none
    verbose := true }

/-! ### Line structure of character lists

`splitLines` produces line lists of a constrained shape: every line is
newline-free, an unterminated line is nonempty and can only come last. -/

/-- Well-formed line lists: all lines newline-free; at most the final line
lacks its terminator, and then it is nonempty. -/
inductive ValidLines : List (List Char × Bool) → Prop
  | nil : ValidLines []
  | last (l : List Char) (h : '\n' ∉ l) (hne : l ≠ []) : ValidLines [(l, false)]
  | cons (l : List Char) (rest : List (List Char × Bool)) (h : '\n' ∉ l)
      (hrest : ValidLines rest) : ValidLines ((l, true) :: rest)

/-! ### The coordinator refines the specification outcome -/

@[simp] theorem joinLines_nil : joinLines [] = [] := rfl

@[simp] theorem joinLines_cons (p : List Char × Bool) (ps : List (List Char × Bool)) :
    joinLines (p :: ps) = (p.1 ++ if p.2 then ['\n'] else []) ++ joinLines ps := by
  simp [joinLines]

theorem txLoop_spec (env : Env) (stmts : List String) :
    txLoop env stmts =
      match failSplit env stmts with
      | (pre, some (q, e)) =>
        .error (.execFailed (clearStatement q) e,
          stmtExecs pre ++ [.exec q [], .rollback env.rollbackErr],
          txStmtLog env (pre ++ [q]) ++ verboseInfo env "Rollback transaction")
      | (pre, none) =>
        .ok (stmtExecs pre, txStmtLog env pre, pre.map fun q => (q, [])) := by
  induction stmts with
  | nil => simp [txLoop, failSplit, stmtExecs, txStmtLog]
  | cons q rest ih =>
    rw [txLoop, failSplit]
    cases hq : env.execErr q [] with
    | some e => simp [stmtExecs, txStmtLog]
    | none =>
      rw [ih]
      rcases hf : failSplit env rest with ⟨pre, f⟩
      cases f with
      | none => simp [hf, stmtExecs, txStmtLog]
      | some qe => rcases qe with ⟨q', e'⟩; simp [hf, stmtExecs, txStmtLog]

theorem autoLoop_spec (env : Env) (stmts : List String) :
    autoLoop env stmts =
      match failSplit env stmts with
      | (pre, some (q, e)) =>
        .error (.execFailed (clearStatement q) e,
          stmtExecs pre ++ [.exec q []],
          autoStmtLog env (pre ++ [q]),
          pre.map fun q => (q, []))
      | (pre, none) =>
        .ok (stmtExecs pre, autoStmtLog env pre, pre.map fun q => (q, [])) := by
  induction stmts with
  | nil => simp [autoLoop, failSplit, stmtExecs, autoStmtLog]
  | cons q rest ih =>
    rw [autoLoop, failSplit]
    cases hq : env.execErr q [] with
    | some e => simp [stmtExecs, autoStmtLog]
    | none =>
      rw [ih]
      rcases hf : failSplit env rest with ⟨pre, f⟩
      cases f with
      | none => simp [hf, stmtExecs, autoStmtLog]
      | some qe => rcases qe with ⟨q', e'⟩; simp [hf, stmtExecs, autoStmtLog]

theorem txVersioning_spec (env : Env) (d : Dialect) (v : Int) (direction : Bool)
    (noVersioning : Bool) :
    txVersioning env d v direction noVersioning =
      if noVersioning then .ok ([], [])
      else
        match env.execErr (bookCall d v direction).1 (bookCall d v direction).2 with
        | some e =>
          .error (bookErr direction e,
            [.exec (bookCall d v direction).1 (bookCall d v direction).2,
              .rollback env.rollbackErr],
            verboseInfo env "Rollback transaction")
        | none =>
          .ok ([.exec (bookCall d v direction).1 (bookCall d v direction).2],
            [bookCall d v direction]) := by
  cases noVersioning with
  | true => simp [txVersioning]
  | false =>
    cases direction with
    | true => simp [txVersioning, bookCall, bookErr]
    | false => simp [txVersioning, bookCall, bookErr]

theorem autoVersioning_spec (env : Env) (d : Dialect) (v : Int) (direction : Bool)
    (noVersioning : Bool) :
    autoVersioning env d v direction noVersioning =
      if noVersioning then .ok ([], [])
      else
        match env.execErr (bookCall d v direction).1 (bookCall d v direction).2 with
        | some e =>
          .error (bookErr direction e,
            [.exec (bookCall d v direction).1 (bookCall d v direction).2])
        | none =>
          .ok ([.exec (bookCall d v direction).1 (bookCall d v direction).2],
            [bookCall d v direction]) := by
  cases noVersioning with
  | true => simp [autoVersioning]
  | false =>
    cases direction with
    | true => simp [autoVersioning, bookCall, bookErr]
    | false => simp [autoVersioning, bookCall, bookErr]

/-- Master refinement: the coordinator produces exactly the outcome the
specification prescribes, for every environment and every parameter
combination. -/
theorem runSQLMigration_eq_expected (env : Env) (d : Dialect) (stmts : List String)
    (useTx : Bool) (v : Int) (direction : Bool) (noVersioning : Bool) :
    runSQLMigration env d stmts useTx v direction noVersioning =
      expectedOutcome env d stmts useTx v direction noVersioning := by
  rcases hf : failSplit env stmts with ⟨pre, f⟩
  cases useTx with
  | false =>
    rw [runSQLMigration, expectedOutcome]
    rw [autoLoop_spec, autoVersioning_spec, hf]
    cases f with
    | some qe =>
      rcases qe with ⟨q, e⟩
      simp
    | none =>
      cases noVersioning with
      | true => simp
      | false =>
        cases hb : env.execErr (bookCall d v direction).1 (bookCall d v direction).2 with
        | some e => simp
        | none => simp
  | true =>
    rw [runSQLMigration, expectedOutcome]
    cases hbg : env.beginErr with
    | some e => simp
    | none =>
      rw [txLoop_spec, txVersioning_spec, hf]
      cases f with
      | some qe =>
        rcases qe with ⟨q, e⟩
        simp
      | none =>
        cases noVersioning with
        | true =>
          cases hc : env.commitErr with
          | some e => simp
          | none => simp
        | false =>
          cases hb : env.execErr (bookCall d v direction).1 (bookCall d v direction).2 with
          | some e => simp
          | none =>
            cases hc : env.commitErr with
            | some e => simp
            | none => simp

/-! ### Helper lemmas about `failSplit` and traces -/

theorem failSplit_of_all_ok (env : Env) (stmts : List String)
    (h : ∀ q ∈ stmts, env.execErr q [] = none) :
    failSplit env stmts = (stmts, none) := by
  induction stmts with
  | nil => rfl
  | cons q rest ih =>
    rw [failSplit, h q (by simp)]
    simp only [ih fun p hp => h p (by simp [hp])]

theorem failSplit_append_fail (env : Env) (pre : List String) (q : String)
    (rest : List String) (e : BaseErr)
    (hpre : ∀ p ∈ pre, env.execErr p [] = none)
    (hq : env.execErr q [] = some e) :
    failSplit env (pre ++ q :: rest) = (pre, some (q, e)) := by
  induction pre with
  | nil => simp [failSplit, hq]
  | cons p ps ih =>
    rw [List.cons_append, failSplit, hpre p (by simp)]
    simp only [ih fun x hx => hpre x (by simp [hx])]

theorem failSplit_snd_of_exists_fail (env : Env) (stmts : List String)
    (h : ∃ q ∈ stmts, env.execErr q [] ≠ none) :
    ∃ q e, (failSplit env stmts).2 = some (q, e) := by
  induction stmts with
  | nil => simp at h
  | cons p rest ih =>
    rw [failSplit]
    cases hp : env.execErr p [] with
    | some e => exact ⟨p, e, rfl⟩
    | none =>
      rcases h with ⟨q, hq, hqf⟩
      rcases List.mem_cons.mp hq with hq | hq
      · exact absurd hp (by rw [hq] at hqf; exact hqf)
      · rcases ih ⟨q, hq, hqf⟩ with ⟨q', e', h'⟩
        exact ⟨q', e', by simpa using h'⟩

theorem failSplit_fst_mem (env : Env) (stmts : List String) :
    ∀ x ∈ (failSplit env stmts).1, x ∈ stmts := by
  induction stmts with
  | nil => simp [failSplit]
  | cons q rest ih =>
    rw [failSplit]
    cases hq : env.execErr q [] with
    | some e => simp
    | none =>
      intro x hx
      rcases List.mem_cons.mp (by simpa using hx) with hx | hx
      · simp [hx]
      · simp [ih x hx]

theorem failSplit_snd_mem (env : Env) (stmts : List String) (q : String) (e : BaseErr)
    (h : (failSplit env stmts).2 = some (q, e)) : q ∈ stmts := by
  induction stmts with
  | nil => simp [failSplit] at h
  | cons p rest ih =>
    rw [failSplit] at h
    cases hp : env.execErr p [] with
    | some e' => rw [hp] at h; simp at h; simp [h.1]
    | none => rw [hp] at h; simp at h; simp [ih h]

@[simp] theorem execCalls_nil : execCalls [] = [] := rfl

@[simp] theorem execCalls_cons_exec (q : String) (a : List Arg) (t : List Ev) :
    execCalls (.exec q a :: t) = (q, a) :: execCalls t := rfl

@[simp] theorem execCalls_cons_beginTx (t : List Ev) :
    execCalls (.beginTx :: t) = execCalls t := rfl

@[simp] theorem execCalls_cons_rollback (r : Option BaseErr) (t : List Ev) :
    execCalls (.rollback r :: t) = execCalls t := rfl

@[simp] theorem execCalls_cons_commit (t : List Ev) :
    execCalls (.commit :: t) = execCalls t := rfl

@[simp] theorem execCalls_append (s t : List Ev) :
    execCalls (s ++ t) = execCalls s ++ execCalls t := by
  simp [execCalls]

@[simp] theorem execCalls_stmtExecs (qs : List String) :
    execCalls (stmtExecs qs) = qs.map fun q => (q, []) := by
  induction qs <;> simp_all [stmtExecs]

/-! ### Claims C1 to C6 -/

theorem getLast?_cons_append_pair (a x y : Ev) (l : List Ev) :
    (a :: (l ++ [x, y])).getLast? = some y := by
  have h : a :: (l ++ [x, y]) = (a :: l ++ [x]) ++ [y] := by simp
  rw [h, List.getLast?_concat]

/-- Claim C1: in transactional mode, if any statement fails, or if every
statement succeeds but the bookkeeping call fails, then `runSQLMigration`
returns an error, the last operation it attempts before returning is the
rollback, and nothing is committed: no statement of the list and no
version record is visible in the database afterwards. -/
theorem tx_failure_rolls_back (env : Env) (d : Dialect) (stmts : List String)
    (v : Int) (direction : Bool) (noVersioning : Bool)
    (hbegin : env.beginErr = none)
    (hfail : (∃ q ∈ stmts, env.execErr q [] ≠ none) ∨
      ((∀ q ∈ stmts, env.execErr q [] = none) ∧ noVersioning = false ∧
        env.execErr (bookCall d v direction).1 (bookCall d v direction).2 ≠ none)) :
    (runSQLMigration env d stmts true v direction noVersioning).result ≠ none ∧
    (runSQLMigration env d stmts true v direction noVersioning).trace.getLast? =
      some (.rollback env.rollbackErr) ∧
    (runSQLMigration env d stmts true v direction noVersioning).db = [] := by
  rw [runSQLMigration_eq_expected]
  rcases hfail with h | ⟨hok, hnv, hbook⟩
  · rcases failSplit_snd_of_exists_fail env stmts h with ⟨q, e, hf⟩
    rcases hf' : failSplit env stmts with ⟨pre, f⟩
    rw [hf'] at hf
    simp only at hf
    subst hf
    rw [expectedOutcome, hbegin]
    simp [hf', getLast?_cons_append_pair]
  · rcases hbook' : env.execErr (bookCall d v direction).1 (bookCall d v direction).2 with
      _ | e
    · exact absurd hbook' hbook
    · rw [expectedOutcome, hbegin, failSplit_of_all_ok env stmts hok]
      subst hnv
      simp [hbook', getLast?_cons_append_pair]

/-- Claim C1 witness: concrete instance with a failing second statement. -/
theorem tx_failure_rolls_back_witness :
    (runSQLMigration envW dW ["ok", "bad"] true 2 true false).result ≠ none ∧
    (runSQLMigration envW dW ["ok", "bad"] true 2 true false).trace.getLast? =
      some (.rollback envW.rollbackErr) ∧
    (runSQLMigration envW dW ["ok", "bad"] true 2 true false).db = [] :=
  tx_failure_rolls_back envW dW ["ok", "bad"] 2 true false rfl
    (Or.inl ⟨"bad", by decide, by decide⟩)

/-- Claim C2: in autocommit mode, when the statements are a successful
prefix followed by a failing statement, `runSQLMigration` returns exactly
that statement's wrapped error, the database keeps exactly the successful
prefix committed, and the trace stops at the failing statement — no later
statement and no bookkeeping call is ever attempted. -/
theorem auto_failure_stops_immediately (env : Env) (d : Dialect)
    (pre : List String) (q : String) (rest : List String) (e : BaseErr)
    (v : Int) (direction : Bool) (noVersioning : Bool)
    (hpre : ∀ p ∈ pre, env.execErr p [] = none)
    (hq : env.execErr q [] = some e) :
    (runSQLMigration env d (pre ++ q :: rest) false v direction noVersioning).result =
      some (.execFailed (clearStatement q) e) ∧
    (runSQLMigration env d (pre ++ q :: rest) false v direction noVersioning).db =
      pre.map (fun s => (s, [])) ∧
    (runSQLMigration env d (pre ++ q :: rest) false v direction noVersioning).trace =
      stmtExecs pre ++ [.exec q []] := by
  rw [runSQLMigration_eq_expected, expectedOutcome,
    failSplit_append_fail env pre q rest e hpre hq]
  simp

/-- Claim C2 witness: concrete autocommit run failing on the second
statement. -/
theorem auto_failure_stops_immediately_witness :
    (runSQLMigration envW dW ["ok", "bad", "later"] false 2 true false).result =
      some (.execFailed (clearStatement "bad") "boom") ∧
    (runSQLMigration envW dW ["ok", "bad", "later"] false 2 true false).db =
      [("ok", [])] ∧
    (runSQLMigration envW dW ["ok", "bad", "later"] false 2 true false).trace =
      stmtExecs ["ok"] ++ [.exec "bad" []] :=
  auto_failure_stops_immediately envW dW ["ok"] "bad" ["later"] "boom" 2 true false
    (by decide) (by decide)

/-- Claim C3: in both modes the attempted operations are exactly
`expectedTrace`: begin first (transactional), the statements in strict list
order up to the first failure with nothing attempted after it (except the
transactional rollback), and — when all statements succeed and versioning is
enabled — the single bookkeeping call strictly after the last statement and
before the commit. -/
theorem trace_matches_expected (env : Env) (d : Dialect) (stmts : List String)
    (useTx : Bool) (v : Int) (direction : Bool) (noVersioning : Bool)
    (hbegin : useTx = true → env.beginErr = none) :
    (runSQLMigration env d stmts useTx v direction noVersioning).trace =
      expectedTrace env d stmts useTx v direction noVersioning := by
  rw [runSQLMigration_eq_expected]
  rcases hf : failSplit env stmts with ⟨pre, f⟩
  cases useTx with
  | false =>
    rw [expectedOutcome, expectedTrace, hf]
    cases f with
    | some qe =>
      rcases qe with ⟨q, e⟩
      simp
    | none =>
      cases noVersioning with
      | true => simp
      | false =>
        cases hb : env.execErr (bookCall d v direction).1 (bookCall d v direction).2 with
        | some e => simp [hb]
        | none => simp [hb]
  | true =>
    rw [expectedOutcome, expectedTrace, hf, hbegin rfl]
    cases f with
    | some qe =>
      rcases qe with ⟨q, e⟩
      simp
    | none =>
      cases noVersioning with
      | true =>
        cases hc : env.commitErr with
        | some e => simp
        | none => simp
      | false =>
        cases hb : env.execErr (bookCall d v direction).1 (bookCall d v direction).2 with
        | some e =>
          cases hc : env.commitErr with
          | some e' => simp [hb]
          | none => simp [hb]
        | none =>
          cases hc : env.commitErr with
          | some e' => simp [hb, hc]
          | none => simp [hb, hc]

/-- Claim C3 witness: concrete transactional run with a failing statement. -/
theorem trace_matches_expected_witness :
    (runSQLMigration envW dW ["ok", "bad"] true 2 false false).trace =
      expectedTrace envW dW ["ok", "bad"] true 2 false false :=
  trace_matches_expected envW dW ["ok", "bad"] true 2 false false fun _ => rfl

/-- Claim C4: with versioning disabled, every executor call the coordinator
issues carries one of the caller's statements — no insert-version and no
delete-version call is ever issued, in either mode, whatever the statement
outcomes and the fate of begin or commit. -/
theorem noVersioning_issues_no_bookkeeping (env : Env) (d : Dialect)
    (stmts : List String) (useTx : Bool) (v : Int) (direction : Bool) :
    (execCalls (runSQLMigration env d stmts useTx v direction true).trace).all
      (fun c => decide (c.1 ∈ stmts)) = true := by
  rw [runSQLMigration_eq_expected]
  rcases hf : failSplit env stmts with ⟨pre, f⟩
  have hpre : ∀ x ∈ pre, x ∈ stmts := by
    have := failSplit_fst_mem env stmts
    rw [hf] at this
    exact this
  cases useTx with
  | false =>
    rw [expectedOutcome, hf]
    cases f with
    | some qe =>
      rcases qe with ⟨q, e⟩
      have hq : q ∈ stmts := failSplit_snd_mem env stmts q e (by rw [hf])
      simp only
      simp [List.all_eq_true, hq]
      exact hpre
    | none =>
      simp only
      simp [List.all_eq_true]
      exact hpre
  | true =>
    rw [expectedOutcome]
    cases hbg : env.beginErr with
    | some e => simp [execCalls]
    | none =>
      rw [hf]
      cases f with
      | some qe =>
        rcases qe with ⟨q, e⟩
        have hq : q ∈ stmts := failSplit_snd_mem env stmts q e (by rw [hf])
        simp only
        simp [List.all_eq_true, hq]
        exact hpre
      | none =>
        cases hc : env.commitErr with
        | some e =>
          simp only
          simp [List.all_eq_true]
          exact hpre
        | none =>
          simp only
          simp [List.all_eq_true]
          exact hpre

/-- Claim C5: when every statement succeeds and versioning is enabled, the
executor calls are exactly the statements in order followed by one single
bookkeeping call — the dialect's insert-version statement with arguments
`(v, direction)` going forward, or its delete-version statement with the
single argument `(v)` going backward. -/
theorem versioning_bookkeeping_exactly_once (env : Env) (d : Dialect)
    (stmts : List String) (useTx : Bool) (v : Int) (direction : Bool)
    (hbegin : useTx = true → env.beginErr = none)
    (hok : ∀ q ∈ stmts, env.execErr q [] = none) :
    execCalls (runSQLMigration env d stmts useTx v direction false).trace =
      stmts.map (fun q => (q, [])) ++ [bookCall d v direction] := by
  rw [runSQLMigration_eq_expected, expectedOutcome, failSplit_of_all_ok env stmts hok]
  cases useTx with
  | false =>
    cases hb : env.execErr (bookCall d v direction).1 (bookCall d v direction).2 with
    | some e => simp
    | none => simp
  | true =>
    rw [hbegin rfl]
    cases hb : env.execErr (bookCall d v direction).1 (bookCall d v direction).2 with
    | some e => simp
    | none =>
      cases hc : env.commitErr with
      | some e => simp
      | none => simp

/-- Claim C5 witness: backward direction, all statements succeed, the
delete-version call is issued exactly once with argument `v = 2`. -/
theorem versioning_bookkeeping_exactly_once_witness :
    execCalls (runSQLMigration envW dW ["a", "b"] true 2 false false).trace =
      [("a", []), ("b", [])] ++ [bookCall dW 2 false] :=
  versioning_bookkeeping_exactly_once envW dW ["a", "b"] true 2 false
    (fun _ => rfl) (by decide)

/-- Claim C6 (counterexample): the rollback failure is not noted in the
diagnostic output.  In a verbose transactional run whose statement fails,
the log produced when `tx.Rollback()` itself fails is character-for-
character the log produced when rollback succeeds — only the fixed
`Rollback transaction` notice emitted before attempting the rollback
appears, so the rollback's own failure cannot be observed in any
diagnostic output, while the returned error is the original statement
error. -/
theorem rollback_failure_not_noted_cex :
    (runSQLMigration ⟨none, fun q _ => if q = "BAD" then some "boom" else none,
        none, some "rollback failed", true⟩ dW ["BAD"] true 1 true false).log =
      (runSQLMigration ⟨none, fun q _ => if q = "BAD" then some "boom" else none,
        none, none, true⟩ dW ["BAD"] true 1 true false).log ∧
    (runSQLMigration ⟨none, fun q _ => if q = "BAD" then some "boom" else none,
        none, some "rollback failed", true⟩ dW ["BAD"] true 1 true false).log =
      ["Begin transaction", "Executing statement: BAD\n", "Rollback transaction"] ∧
    (runSQLMigration ⟨none, fun q _ => if q = "BAD" then some "boom" else none,
        none, some "rollback failed", true⟩ dW ["BAD"] true 1 true false).result =
      some (.execFailed "BAD" "boom") := by
  decide

theorem failSplit_rollbackErr (env : Env) (r : Option BaseErr)
    (stmts : List String) :
    failSplit { env with rollbackErr := r } stmts = failSplit env stmts := by
  induction stmts with
  | nil => rfl
  | cons q rest ih =>
    rw [failSplit, failSplit]
    dsimp only
    cases env.execErr q [] with
    | some e => rfl
    | none => rw [ih]

theorem expectedOutcome_rollbackErr_invariant (env : Env) (d : Dialect)
    (stmts : List String) (v : Int) (direction : Bool) (noVersioning : Bool)
    (r : Option BaseErr) :
    (expectedOutcome { env with rollbackErr := r } d stmts true v direction
        noVersioning).log =
      (expectedOutcome env d stmts true v direction noVersioning).log ∧
    (expectedOutcome { env with rollbackErr := r } d stmts true v direction
        noVersioning).db =
      (expectedOutcome env d stmts true v direction noVersioning).db := by
  rcases hf : failSplit env stmts with ⟨pre, f⟩
  have hf2 : failSplit { env with rollbackErr := r } stmts = (pre, f) := by
    rw [failSplit_rollbackErr, hf]
  rw [expectedOutcome, expectedOutcome, hf, hf2]
  dsimp only
  cases hbg : env.beginErr with
  | some e => simp [verboseInfo]
  | none =>
    cases f with
    | some qe =>
      rcases qe with ⟨q, e⟩
      simp [verboseInfo, txStmtLog]
    | none =>
      cases noVersioning with
      | true =>
        cases hc : env.commitErr with
        | some e => simp [verboseInfo, txStmtLog]
        | none => simp [verboseInfo, txStmtLog]
      | false =>
        cases hb : env.execErr (bookCall d v direction).1 (bookCall d v direction).2 with
        | some e => simp [verboseInfo, txStmtLog]
        | none =>
          cases hc : env.commitErr with
          | some e => simp [verboseInfo, txStmtLog]
          | none => simp [verboseInfo, txStmtLog]

/-- Claim C6 (amended): when a statement or the bookkeeping operation fails
in transactional mode, the error returned is the original
statement/bookkeeping error whatever the rollback's own outcome — the
rollback failure never replaces or hides it — but the rollback failure is
silently discarded rather than noted: the diagnostic log and the database
state are identical whether rollback fails or succeeds. -/
theorem rollback_failure_preserves_original_error (env : Env) (d : Dialect)
    (stmts : List String) (v : Int) (direction : Bool) (noVersioning : Bool)
    (r : Option BaseErr) (hbegin : env.beginErr = none) :
    (∀ pre q rest e, stmts = pre ++ q :: rest →
        (∀ p ∈ pre, env.execErr p [] = none) → env.execErr q [] = some e →
        (runSQLMigration { env with rollbackErr := r } d stmts true v direction
            noVersioning).result = some (.execFailed (clearStatement q) e)) ∧
    ((∀ q ∈ stmts, env.execErr q [] = none) → noVersioning = false →
        ∀ e, env.execErr (bookCall d v direction).1 (bookCall d v direction).2 =
          some e →
        (runSQLMigration { env with rollbackErr := r } d stmts true v direction
            noVersioning).result = some (bookErr direction e)) ∧
    (runSQLMigration { env with rollbackErr := r } d stmts true v direction
        noVersioning).log =
      (runSQLMigration { env with rollbackErr := none } d stmts true v direction
          noVersioning).log ∧
    (runSQLMigration { env with rollbackErr := r } d stmts true v direction
        noVersioning).db =
      (runSQLMigration { env with rollbackErr := none } d stmts true v direction
          noVersioning).db := by
  refine ⟨?_, ?_, ?_, ?_⟩
  · intro pre q rest e hs hpre hq
    subst hs
    rw [runSQLMigration_eq_expected, expectedOutcome,
      failSplit_append_fail { env with rollbackErr := r } pre q rest e hpre hq]
    simp [hbegin]
  · intro hok hnv e hbook
    subst hnv
    rw [runSQLMigration_eq_expected, expectedOutcome,
      failSplit_of_all_ok { env with rollbackErr := r } stmts hok]
    simp [hbegin, hbook]
  · rw [runSQLMigration_eq_expected, runSQLMigration_eq_expected]
    exact (expectedOutcome_rollbackErr_invariant env d stmts v direction
        noVersioning r).1.trans
      (expectedOutcome_rollbackErr_invariant env d stmts v direction
        noVersioning none).1.symm
  · rw [runSQLMigration_eq_expected, runSQLMigration_eq_expected]
    exact (expectedOutcome_rollbackErr_invariant env d stmts v direction
        noVersioning r).2.trans
      (expectedOutcome_rollbackErr_invariant env d stmts v direction
        noVersioning none).2.symm

/-- Claim C6 witness: concrete instances with a failing rollback, one for a
failing statement and one for a failing insert-version bookkeeping call,
plus the unchanged diagnostic log. -/
theorem rollback_failure_preserves_original_error_witness :
    (runSQLMigration { envW with rollbackErr := some "rb boom" } dW ["bad"] true 2
        true false).result = some (.execFailed (clearStatement "bad") "boom") ∧
    (runSQLMigration { envB with rollbackErr := some "rb boom" } dW ["ok"] true 2
        true false).result = some (bookErr true "insboom") ∧
    (runSQLMigration { envW with rollbackErr := some "rb boom" } dW ["bad"] true 2
        true false).log =
      (runSQLMigration { envW with rollbackErr := none } dW ["bad"] true 2
        true false).log ∧
    (runSQLMigration { envW with rollbackErr := some "rb boom" } dW ["bad"] true 2
        true false).db =
      (runSQLMigration { envW with rollbackErr := none } dW ["bad"] true 2
        true false).db :=
  ⟨(rollback_failure_preserves_original_error envW dW ["bad"] 2 true false
      (some "rb boom") rfl).1 [] "bad" [] "boom" rfl (by decide) (by decide),
   (rollback_failure_preserves_original_error envB dW ["ok"] 2 true false
      (some "rb boom") rfl).2.1 (by decide) rfl "insboom" (by decide),
   (rollback_failure_preserves_original_error envW dW ["bad"] 2 true false
      (some "rb boom") rfl).2.2.1,
   (rollback_failure_preserves_original_error envW dW ["bad"] 2 true false
      (some "rb boom") rfl).2.2.2⟩

/-! ### Claims C8 and C10 -/

theorem selectLoop_fst (c : Option BaseErr) (n : Nat) : (selectLoop c n).1 = c := by
  induction n with
  | zero => rfl
  | succ n ih => simp [selectLoop, ih]

/-- Claim C8: for every executor, statement, arguments, and tick schedule,
the verbose diagnostic path of `execQuery` completes with exactly the result
of the non-verbose fast path — the executor is invoked once in both paths
and its error (or success) is propagated unchanged; the polling only adds
progress log lines. -/
theorem execQuery_verbose_refines_fast
    (fn : String → List Arg → Nat × Option BaseErr) (q : String) (args : List Arg)
    (ticks : Nat) :
    (execQuery true ticks fn q args).err = (execQuery false 0 fn q args).err ∧
    (execQuery true ticks fn q args).calls = [(q, args)] ∧
    (execQuery false 0 fn q args).calls = [(q, args)] := by
  refine ⟨?_, rfl, rfl⟩
  simp [execQuery, selectLoop_fst]

/-- Claim C10: `execQuery` ignores the rows-affected value returned by the
executor: two executors whose error components agree at the call produce
identical `execQuery` results, in both verbose and non-verbose modes,
whatever their rows-affected values. -/
theorem execQuery_ignores_rows_affected (verbose : Bool) (ticks : Nat)
    (fn fn' : String → List Arg → Nat × Option BaseErr)
    (q : String) (args : List Arg)
    (h : (fn q args).2 = (fn' q args).2) :
    execQuery verbose ticks fn q args = execQuery verbose ticks fn' q args := by
  cases verbose with
  | false => simp [execQuery, h]
  | true => simp [execQuery, h]

/-- Claim C10 witness: executors reporting different rows-affected values
but the same (successful) error component give the same result. -/
theorem execQuery_ignores_rows_affected_witness :
    execQuery true 2 (fun _ _ => (5, none)) "q" [] =
      execQuery true 2 (fun _ _ => (7, none)) "q" [] :=
  execQuery_ignores_rows_affected true 2 (fun _ _ => (5, none))
    (fun _ _ => (7, none)) "q" [] rfl

theorem validLines_splitLines (cs : List Char) : ValidLines (splitLines cs) := by
  induction cs with
  | nil => exact .nil
  | cons c cs ih =>
    rw [splitLines]
    by_cases hc : c = '\n'
    · simp only [hc, if_pos rfl]
      exact .cons [] _ (by simp) ih
    · simp only [if_neg hc]
      cases hsl : splitLines cs with
      | nil => exact .last [c] (by simp [Ne.symm hc]) (by simp)
      | cons p rest =>
        rcases p with ⟨l, t⟩
        rw [hsl] at ih
        cases ih with
        | last l h hne => exact .last (c :: l) (by simp [Ne.symm hc, h]) (by simp)
        | cons l rest h hrest => exact .cons (c :: l) rest (by simp [Ne.symm hc, h]) hrest

theorem splitLines_chars_sub (cs : List Char) :
    ∀ p ∈ splitLines cs, ∀ c ∈ p.1, c ∈ cs := by
  induction cs with
  | nil => simp [splitLines]
  | cons a cs ih =>
    rw [splitLines]
    by_cases ha : a = '\n'
    · simp only [ha, if_pos rfl]
      intro p hp c hc
      rcases List.mem_cons.mp hp with hp | hp
      · subst hp; simp at hc
      · exact List.mem_cons_of_mem _ (ih p hp c hc)
    · simp only [if_neg ha]
      cases hsl : splitLines cs with
      | nil =>
        intro p hp c hc
        simp at hp
        subst hp
        simp at hc
        simp [hc]
      | cons q rest =>
        rcases q with ⟨l, t⟩
        intro p hp c hc
        rcases List.mem_cons.mp hp with hp | hp
        · subst hp
          rcases List.mem_cons.mp hc with hc | hc
          · simp [hc]
          · exact List.mem_cons_of_mem _ (ih (l, t) (by rw [hsl]; simp) c hc)
        · exact List.mem_cons_of_mem _ (ih p (by rw [hsl]; simp [hp]) c hc)

theorem joinLines_splitLines (cs : List Char) : joinLines (splitLines cs) = cs := by
  induction cs with
  | nil => rfl
  | cons c cs ih =>
    rw [splitLines]
    by_cases hc : c = '\n'
    · simp only [hc, if_pos rfl]
      simp [joinLines] at ih ⊢
      exact ih
    · simp only [if_neg hc]
      cases hsl : splitLines cs with
      | nil =>
        rw [hsl] at ih
        simp [joinLines] at ih ⊢
        simp [ih.symm]
      | cons p rest =>
        rcases p with ⟨l, t⟩
        rw [hsl] at ih
        simp [joinLines] at ih ⊢
        exact ih

theorem splitLines_append_nl (l : List Char) (X : List Char) (h : '\n' ∉ l) :
    splitLines (l ++ '\n' :: X) = (l, true) :: splitLines X := by
  induction l with
  | nil => simp [splitLines]
  | cons c t ih =>
    have hc : c ≠ '\n' := fun hcc => h (by simp [hcc])
    rw [List.cons_append, splitLines, if_neg hc,
      ih fun ht => h (List.mem_cons_of_mem _ ht)]

theorem splitLines_nlfree (l : List Char) (h : '\n' ∉ l) (hne : l ≠ []) :
    splitLines l = [(l, false)] := by
  induction l with
  | nil => exact absurd rfl hne
  | cons c t ih =>
    have hc : c ≠ '\n' := fun hcc => h (by simp [hcc])
    rw [splitLines, if_neg hc]
    cases t with
    | nil => simp [splitLines]
    | cons a u =>
      rw [ih (fun hm => h (List.mem_cons_of_mem _ hm)) (by simp)]

theorem splitLines_joinLines (L : List (List Char × Bool)) (h : ValidLines L) :
    splitLines (joinLines L) = L := by
  induction h with
  | nil => rfl
  | last l hnl hne => simp [joinLines]; exact splitLines_nlfree l hnl hne
  | cons l rest hnl hrest ih =>
    have : joinLines ((l, true) :: rest) = l ++ '\n' :: joinLines rest := by
      simp [joinLines]
    rw [this, splitLines_append_nl l _ hnl, ih]

theorem joinLines_no_cr (L : List (List Char × Bool))
    (h : ∀ p ∈ L, '\r' ∉ p.1) : '\r' ∉ joinLines L := by
  intro hmem
  rw [joinLines] at hmem
  rcases List.mem_flatMap.mp hmem with ⟨p, hp, hc⟩
  rcases List.mem_append.mp hc with hc | hc
  · exact h p hp hc
  · rcases p with ⟨l, t⟩
    cases t <;> simp at hc

theorem validLines_filter (L : List (List Char × Bool)) (h : ValidLines L) :
    ValidLines (L.filter fun p => keepLine p.1) := by
  induction h with
  | nil => exact .nil
  | last l hnl hne =>
    by_cases hk : keepLine l = true
    · rw [List.filter_cons]
      simp only [hk, if_pos]
      exact .last l hnl hne
    · rw [List.filter_cons]
      simp only [hk]
      simp only [Bool.false_eq_true, if_neg, List.filter_nil]
      exact .nil
  | cons l rest hnl hrest ih =>
    by_cases hk : keepLine l = true
    · rw [List.filter_cons]
      simp only [hk, if_pos]
      exact .cons l _ hnl ih
    · rw [List.filter_cons]
      simp only [hk]
      simp only [Bool.false_eq_true, if_neg]
      exact ih

theorem filter_keepLine_idem (L : List (List Char × Bool)) :
    ((L.filter fun p => keepLine p.1).filter fun p => keepLine p.1) =
      L.filter fun p => keepLine p.1 := by
  rw [List.filter_filter]
  simp

theorem take_two_dash (l : List Char) (hc : l.take 2 = ['-', '-']) :
    ∃ t, l = '-' :: '-' :: t := by
  rcases l with _ | ⟨a, _ | ⟨b, t⟩⟩
  · simp at hc
  · simp at hc
  · simp [List.take] at hc
    exact ⟨t, by rw [hc.1, hc.2]⟩

/-! ### Behaviour of the comment scanner on line-structured input -/

theorem scRun_mid_append (l X : List Char) (h : '\n' ∉ l) :
    scRun .mid (l ++ '\n' :: X) = l ++ '\n' :: scRun .st0 X := by
  induction l with
  | nil => rw [List.nil_append, scRun]; simp [scStep]
  | cons c t ih =>
    have hc : c ≠ '\n' := fun hcc => h (by simp [hcc])
    rw [List.cons_append, scRun]
    simp [scStep, hc, ih fun hm => h (List.mem_cons_of_mem _ hm)]

theorem scRun_mid_nlfree (l : List Char) (h : '\n' ∉ l) : scRun .mid l = l := by
  induction l with
  | nil => rfl
  | cons c t ih =>
    have hc : c ≠ '\n' := fun hcc => h (by simp [hcc])
    rw [scRun]
    simp [scStep, hc, ih fun hm => h (List.mem_cons_of_mem _ hm)]

theorem scRun_skipLine_append (t X : List Char) (h : '\n' ∉ t) :
    scRun .skipLine (t ++ '\n' :: X) = scRun (.skipEols true) X := by
  induction t with
  | nil => rw [List.nil_append, scRun]; simp [scStep]
  | cons c u ih =>
    have hc : c ≠ '\n' := fun hcc => h (by simp [hcc])
    rw [List.cons_append, scRun]
    simp [scStep, hc, ih fun hm => h (List.mem_cons_of_mem _ hm)]

theorem scRun_skipLine_nlfree (t : List Char) (h : '\n' ∉ t) :
    scRun .skipLine t = [] := by
  induction t with
  | nil => rfl
  | cons c u ih =>
    have hc : c ≠ '\n' := fun hcc => h (by simp [hcc])
    rw [scRun]
    simp [scStep, hc, ih fun hm => h (List.mem_cons_of_mem _ hm)]

theorem scRun_st0_noncomment_append (l X : List Char) (h : '\n' ∉ l)
    (hnc : l.take 2 ≠ ['-', '-']) :
    scRun .st0 (l ++ '\n' :: X) = l ++ '\n' :: scRun .st0 X := by
  rcases l with _ | ⟨c1, _ | ⟨c2, t⟩⟩
  · rw [List.nil_append, scRun]; simp [scStep]
  · have hc1 : c1 ≠ '\n' := fun hcc => h (by simp [hcc])
    by_cases hd : c1 = '-'
    · subst hd
      rw [List.cons_append, List.nil_append, scRun]
      simp only [scStep, if_pos rfl]
      rw [scRun]
      simp [scStep]
    · rw [List.cons_append, List.nil_append, scRun]
      simp only [scStep, if_neg hd, if_neg hc1]
      rw [scRun]
      simp [scStep]
  · have hc1 : c1 ≠ '\n' := fun hcc => h (by simp [hcc])
    have hc2 : c2 ≠ '\n' := fun hcc => h (by simp [hcc])
    have ht : '\n' ∉ t := fun hm => h (by simp [hm])
    by_cases hd1 : c1 = '-'
    · subst hd1
      have hd2 : c2 ≠ '-' := fun hcc => hnc (by simp [List.take, hcc])
      rw [List.cons_append, List.cons_append, scRun]
      simp only [scStep, if_pos rfl]
      rw [scRun]
      simp [scStep, hd2, hc2, scRun_mid_append t X ht]
    · rw [List.cons_append, scRun]
      have hmm := scRun_mid_append (c2 :: t) X (by simp [Ne.symm hc2, ht])
      rw [List.cons_append] at hmm
      simp [scStep, hd1, hc1, hmm]

theorem scRun_st0_noncomment_nlfree (l : List Char) (h : '\n' ∉ l)
    (hnc : l.take 2 ≠ ['-', '-']) : scRun .st0 l = l := by
  rcases l with _ | ⟨c1, _ | ⟨c2, t⟩⟩
  · rfl
  · have hc1 : c1 ≠ '\n' := fun hcc => h (by simp [hcc])
    by_cases hd : c1 = '-'
    · subst hd
      rw [scRun]
      simp [scStep, scRun, scFinish]
    · rw [scRun]
      simp [scStep, hd, hc1, scRun, scFinish]
  · have hc1 : c1 ≠ '\n' := fun hcc => h (by simp [hcc])
    have hc2 : c2 ≠ '\n' := fun hcc => h (by simp [hcc])
    have ht : '\n' ∉ t := fun hm => h (by simp [hm])
    by_cases hd1 : c1 = '-'
    · subst hd1
      have hd2 : c2 ≠ '-' := fun hcc => hnc (by simp [List.take, hcc])
      rw [scRun]
      simp only [scStep, if_pos rfl]
      rw [scRun]
      simp [scStep, hd2, hc2, scRun_mid_nlfree t ht]
    · rw [scRun]
      simp [scStep, hd1, hc1,
        scRun_mid_nlfree (c2 :: t) (by simp [Ne.symm hc2, ht])]

theorem scRun_st0_comment_append (t X : List Char) (h : '\n' ∉ t) :
    scRun .st0 ('-' :: '-' :: (t ++ '\n' :: X)) = scRun (.skipEols true) X := by
  rw [scRun]
  simp only [scStep, if_pos rfl]
  rw [scRun]
  simp only [scStep, if_pos rfl]
  simp [scRun_skipLine_append t X h]

theorem scRun_st0_comment_nlfree (t : List Char) (h : '\n' ∉ t) :
    scRun .st0 ('-' :: '-' :: t) = [] := by
  rw [scRun]
  simp only [scStep, if_pos rfl]
  rw [scRun]
  simp only [scStep, if_pos rfl]
  simp [scRun_skipLine_nlfree t h]

theorem scStep_no_cr (st : SCState) (c : Char) (hc : c ≠ '\r') :
    '\r' ∉ (scStep st c).2 := by
  have hc' : ¬ ('\r' = c) := fun hq => hc hq.symm
  cases st with
  | st0 => simp only [scStep]; split_ifs <;> simp_all
  | dash => simp only [scStep]; split_ifs <;> simp_all
  | mid => simp only [scStep]; split_ifs <;> simp_all
  | skipLine => simp only [scStep]; split_ifs <;> simp_all
  | skipEols b => simp only [scStep]; split_ifs <;> simp_all

theorem scRun_no_cr (cs : List Char) (h : '\r' ∉ cs) (st : SCState) :
    '\r' ∉ scRun st cs := by
  induction cs generalizing st with
  | nil => cases st <;> simp [scRun, scFinish]
  | cons c t ih =>
    rw [scRun]
    intro hm
    rcases List.mem_append.mp hm with hm | hm
    · exact scStep_no_cr st c (fun hcc => h (by simp [hcc])) hm
    · exact ih (fun hmm => h (List.mem_cons_of_mem _ hmm)) _ hm

/-! ### Behaviour of the empty-line scanner on line-structured input -/

theorem esRun_eMid_append (l X : List Char) (h : '\n' ∉ l) :
    esRun .eMid (l ++ '\n' :: X) = l ++ '\n' :: esRun .e0 X := by
  induction l with
  | nil => rw [List.nil_append, esRun]; simp [esStep]
  | cons c t ih =>
    have hc : c ≠ '\n' := fun hcc => h (by simp [hcc])
    rw [List.cons_append, esRun]
    simp [esStep, hc, ih fun hm => h (List.mem_cons_of_mem _ hm)]

theorem esRun_eMid_nlfree (l : List Char) (h : '\n' ∉ l) : esRun .eMid l = l := by
  induction l with
  | nil => rfl
  | cons c t ih =>
    have hc : c ≠ '\n' := fun hcc => h (by simp [hcc])
    rw [esRun]
    simp [esStep, hc, ih fun hm => h (List.mem_cons_of_mem _ hm)]

theorem esRun_e0_append (l X : List Char) (h : '\n' ∉ l) (hne : l ≠ []) :
    esRun .e0 (l ++ '\n' :: X) = l ++ '\n' :: esRun .e0 X := by
  rcases l with _ | ⟨c, t⟩
  · exact absurd rfl hne
  · have hc : c ≠ '\n' := fun hcc => h (by simp [hcc])
    have ht : '\n' ∉ t := fun hm => h (by simp [hm])
    rw [List.cons_append, esRun]
    simp [esStep, hc, esRun_eMid_append t X ht]

theorem esRun_e0_nlfree (l : List Char) (h : '\n' ∉ l) : esRun .e0 l = l := by
  rcases l with _ | ⟨c, t⟩
  · rfl
  · have hc : c ≠ '\n' := fun hcc => h (by simp [hcc])
    have ht : '\n' ∉ t := fun hm => h (by simp [hm])
    rw [esRun]
    simp [esStep, hc, esRun_eMid_nlfree t ht]

theorem esRun_eSkip_eq_e0 (Y : List Char) (h : '\r' ∉ Y) :
    esRun .eSkip Y = esRun .e0 Y := by
  rcases Y with _ | ⟨c, t⟩
  · rfl
  · by_cases hc : c = '\n'
    · subst hc
      rw [esRun, esRun]
      simp [esStep]
    · have hr : c ≠ '\r' := fun hcc => h (by simp [hcc])
      rw [esRun, esRun]
      simp [esStep, hc, hr]

theorem esRun_e0_cons_nl (Y : List Char) (h : '\r' ∉ Y) :
    esRun .e0 ('\n' :: Y) = esRun .e0 Y := by
  rw [esRun]
  simp only [esStep, if_pos rfl]
  simp [esRun_eSkip_eq_e0 Y h]

theorem esRun_scRun_skipEols (X : List Char) (h : '\r' ∉ X) :
    esRun .e0 (scRun (.skipEols true) X) = esRun .e0 (scRun .st0 X) := by
  induction X with
  | nil => rfl
  | cons c t ih =>
    have ht : '\r' ∉ t := fun hm => h (List.mem_cons_of_mem _ hm)
    by_cases hc : c = '\n'
    · subst hc
      rw [scRun, scRun]
      simp only [scStep]
      norm_num
      rw [if_neg (show ¬('\n' : Char) = '-' by decide)]
      simp only [List.singleton_append]
      rw [esRun_e0_cons_nl _ (scRun_no_cr t ht _)]
      exact ih ht
    · have hr : c ≠ '\r' := fun hcc => h (by simp [hcc])
      by_cases hd : c = '-'
      · subst hd
        rw [scRun, scRun]
        simp [scStep]
      · rw [scRun, scRun]
        simp [scStep, hc, hr, hd]

/-! ### The sanitiser characterisation -/

theorem clearStatement_lines (L : List (List Char × Bool)) (h : ValidLines L)
    (hcr : ∀ p ∈ L, '\r' ∉ p.1) :
    esRun .e0 (scRun .st0 (joinLines L)) =
      joinLines (L.filter fun p => keepLine p.1) := by
  induction h with
  | nil => rfl
  | last l hnl hne =>
    have hj : joinLines [(l, false)] = l := by simp [joinLines]
    rw [hj]
    by_cases hc : l.take 2 = ['-', '-']
    · obtain ⟨t, rfl⟩ := take_two_dash l hc
      have ht : '\n' ∉ t := fun hm => hnl (by simp [hm])
      rw [scRun_st0_comment_nlfree t ht]
      have hk : keepLine ('-' :: '-' :: t) = false := by
        simp [keepLine, List.take]
      simp [List.filter_cons, hk, esRun]
    · rw [scRun_st0_noncomment_nlfree l hnl hc, esRun_e0_nlfree l hnl]
      have hk : keepLine l = true := by simp [keepLine, hc, hne]
      simp [List.filter_cons, hk]
  | cons l rest hnl hrest ih =>
    have hcr_rest : ∀ p ∈ rest, '\r' ∉ p.1 := fun p hp => hcr p (by simp [hp])
    have hJ : '\r' ∉ joinLines rest := joinLines_no_cr rest hcr_rest
    have hj : joinLines ((l, true) :: rest) = l ++ '\n' :: joinLines rest := by
      simp [joinLines]
    rw [hj]
    have ih' := ih hcr_rest
    rcases hl : l with _ | ⟨c, t⟩
    · rw [List.nil_append, scRun]
      simp only [scStep]
      norm_num
      rw [if_neg (show ¬('\n' : Char) = '-' by decide)]
      simp only [List.singleton_append]
      rw [esRun_e0_cons_nl _ (scRun_no_cr (joinLines rest) hJ _)]
      have hk : keepLine ([] : List Char) = false := by simp [keepLine]
      simp [List.filter_cons, hk, ih']
    · rw [← hl]
      have hlne : l ≠ [] := by rw [hl]; simp
      by_cases hc : l.take 2 = ['-', '-']
      · obtain ⟨t', rfl⟩ := take_two_dash l hc
        have ht' : '\n' ∉ t' := fun hm => hnl (by simp [hm])
        rw [List.cons_append, List.cons_append, scRun_st0_comment_append t' _ ht',
          esRun_scRun_skipEols _ hJ]
        have hk : keepLine ('-' :: '-' :: t') = false := by
          simp [keepLine, List.take]
        simp [List.filter_cons, hk, ih']
      · rw [scRun_st0_noncomment_append l _ hnl hc,
          esRun_e0_append l _ hnl hlne]
        have hk : keepLine l = true := by simp [keepLine, hc, hlne]
        simp [List.filter_cons, hk, ih']

theorem clearStatement_eq_filter (s : String) (h : '\r' ∉ s.data) :
    (clearStatement s).data =
      joinLines ((splitLines s.data).filter fun p => keepLine p.1) := by
  have hL : ValidLines (splitLines s.data) := validLines_splitLines s.data
  have hcr : ∀ p ∈ splitLines s.data, '\r' ∉ p.1 := fun p hp hc =>
    h (splitLines_chars_sub s.data p hp '\r' hc)
  have hmain := clearStatement_lines (splitLines s.data) hL hcr
  rw [joinLines_splitLines s.data] at hmain
  simpa [clearStatement, matchEmptyEOLReplace, matchSQLCommentsReplace] using hmain

/-! ### Claims C7 and C9 -/

/-- Claim C7 (counterexample): sanitisation is not idempotent on every
string.  On `"--x\n\r--y"` the comment match eats the `\r\n` run, so the
remaining `--y` is not at a line start and survives the first pass; a second
pass sees it in column 0 and deletes it. -/
theorem clearStatement_not_idempotent_cex :
    clearStatement (clearStatement "--x\n\r--y") ≠ clearStatement "--x\n\r--y" ∧
    clearStatement "--x\n\r--y" = "--y" ∧
    clearStatement (clearStatement "--x\n\r--y") = "" :=
  ⟨by decide, by decide, by decide⟩

/-- Claim C7 (amended): on every string free of carriage returns, applying
the sanitiser twice yields the same result as applying it once. -/
theorem clearStatement_idempotent_of_no_cr (s : String) (h : '\r' ∉ s.data) :
    clearStatement (clearStatement s) = clearStatement s := by
  have h1 := clearStatement_eq_filter s h
  have hKvalid : ValidLines ((splitLines s.data).filter fun p => keepLine p.1) :=
    validLines_filter _ (validLines_splitLines s.data)
  have hKcr : ∀ p ∈ (splitLines s.data).filter fun p => keepLine p.1, '\r' ∉ p.1 :=
    fun p hp hc =>
      h (splitLines_chars_sub s.data p (List.mem_of_mem_filter hp) '\r' hc)
  have h2 : '\r' ∉ (clearStatement s).data := by
    rw [h1]
    exact joinLines_no_cr _ hKcr
  have h3 := clearStatement_eq_filter (clearStatement s) h2
  rw [h1, splitLines_joinLines _ hKvalid, filter_keepLine_idem, ← h1] at h3
  exact String.ext h3

/-- Claim C7 witness: a carriage-return-free statement with comment and
blank lines sanitises idempotently. -/
theorem clearStatement_idempotent_of_no_cr_witness :
    clearStatement (clearStatement "a\n\n-- c\nb") = clearStatement "a\n\n-- c\nb" :=
  clearStatement_idempotent_of_no_cr "a\n\n-- c\nb" (by decide)

/-- Claim C9 (counterexample): a line with whitespace before `--` is not
always preserved unchanged.  In `"--x\n\r--y"` the second line is
`"\r--y"` — its marker is not in column 0 — yet the sanitised output is
`"--y"`: the comment match's greedy `[\r\n]*` tail swallowed the line's
leading carriage return. -/
theorem clearStatement_line_preservation_cex :
    (clearStatement "--x\n\r--y").data ≠
      joinLines ((splitLines ("--x\n\r--y" : String).data).filter
        fun p => keepLine p.1) ∧
    clearStatement "--x\n\r--y" = "--y" ∧
    joinLines ((splitLines ("--x\n\r--y" : String).data).filter
        fun p => keepLine p.1) = '\r' :: ("--y" : String).data :=
  ⟨by decide, by decide, by decide⟩

/-- Claim C9 (amended): on every carriage-return-free string the sanitiser
removes exactly the lines that are entirely empty or whose `--` marker
starts in column 0, and every other line — including lines with whitespace
before `--` or with `--` mid-line — is preserved unchanged, terminator
included. -/
theorem clearStatement_strips_exactly_comment_and_empty_lines (s : String)
    (h : '\r' ∉ s.data) :
    (clearStatement s).data =
      joinLines ((splitLines s.data).filter fun p => keepLine p.1) :=
  clearStatement_eq_filter s h

/-- Claim C9 witness: indented comments and trailing inline comments are
preserved; only column-0 comment lines and empty lines are removed. -/
theorem clearStatement_strips_exactly_comment_and_empty_lines_witness :
    (clearStatement "keep\n--drop\n\n  -- indented\nmid -- tail\nlast").data =
      joinLines ((splitLines
        ("keep\n--drop\n\n  -- indented\nmid -- tail\nlast" : String).data).filter
        fun p => keepLine p.1) :=
  clearStatement_strips_exactly_comment_and_empty_lines _ (by decide)

end Goose
